import Mathlib

/-!
# Verification of the conversational agent orchestrator

Shallow embedding of the core of the `vibe-mcp-client` repository:
`controller.py` (conversation orchestrator), `mcp_handler.py` (tool session
manager) and `llm_handler.py` (completion client).  External I/O (the model
endpoint, the tool subprocess, the Tk presentation layer) is modelled as an
explicit environment of oracles; everything the program emits to the
presentation boundary, and every suspension point that reaches the network,
is recorded in an `Action` trace.
-/

namespace VibeMCP

/-- A JSON value, as built by the Python code with dict/list/str literals
(`json.dumps` arguments and results are kept in structured form; the exact
rendering to a string is a presentation detail the code never inspects). -/
inductive Json where
  | null : Json
  | str (s : String) : Json
  | num (n : Int) : Json
  | bool (b : Bool) : Json
  | arr (items : List Json) : Json
  | obj (fields : List (String × Json)) : Json

/-- Structural equality on JSON values. -/
def Json.beq : Json → Json → Bool
  | .null, .null => true
  | .str a, .str b => a == b
  | .num a, .num b => a == b
  | .bool a, .bool b => a == b
  | .arr [], .arr [] => true
  | .arr (x :: xs), .arr (y :: ys) => Json.beq x y && Json.beq (.arr xs) (.arr ys)
  | .obj [], .obj [] => true
  | .obj ((k, v) :: xs), .obj ((l, w) :: ys) =>
      k == l && Json.beq v w && Json.beq (.obj xs) (.obj ys)
  | _, _ => false

theorem Json.beq_iff_eq : ∀ a b : Json, Json.beq a b = true ↔ a = b := by
  intro a b
  induction a, b using Json.beq.induct <;>
    try (simp_all [Json.beq]; done)
  rename_i a b hnull hstr hnum hbool harrnil harrcons hobjnil hobjcons
  cases a <;> cases b <;>
    first
    | exact (hnull rfl rfl).elim
    | exact (hnum _ _ rfl rfl).elim
    | exact (hstr _ _ rfl rfl).elim
    | exact (hbool _ _ rfl rfl).elim
    | (rename_i xs ys
       cases xs <;> cases ys <;>
         first
         | exact (harrnil rfl rfl).elim
         | exact (hobjnil rfl rfl).elim
         | exact (harrcons _ _ _ _ rfl rfl).elim
         | exact (hobjcons _ _ _ _ _ _ rfl rfl).elim
         | simp [Json.beq])
    | simp [Json.beq]

instance : DecidableEq Json := fun a b =>
  decidable_of_iff (Json.beq a b = true) (Json.beq_iff_eq a b)

/-- `isinstance(x, dict)` on a JSON value. -/
def Json.isDict : Json → Bool
  | .obj _ => true
  | _ => false

/-- A Python string value that is either a plain string or the result of
`json.dumps` on a structured value (kept structured; `json.dumps` is
injective on the values this program serializes). -/
inductive Str where
  | lit (s : String) : Str
  | dumps (j : Json) : Str
deriving DecidableEq

/-- The raw `arguments` string of a tool call: either a string that parses
as JSON (kept parsed) or one on which `json.loads` raises
`json.JSONDecodeError`. -/
inductive ArgPayload where
  | valid (j : Json) : ArgPayload
  | invalid (raw : String) : ArgPayload
deriving DecidableEq

/-- `tool_call.function` of an OpenAI tool-call request. -/
structure FunctionSpec where
  name : String
  arguments : ArgPayload
deriving DecidableEq

/-- One tool-call request carried by an assistant response
(`tool_call.id`, `tool_call.function`). -/
structure ToolCallRequest where
  id : String
  function : FunctionSpec
deriving DecidableEq

/-- A conversation-history entry, mirroring the dicts the controller appends
to `self.messages` (absent dict keys are `none`). -/
structure Message where
  role : String
  content : Option Str := none
  toolCalls : Option (List ToolCallRequest) := none
  toolCallId : Option String := none
  name : Option String := none
deriving DecidableEq

/-! ## Tool session manager (`mcp_handler.py`) -/

/-- The background lifecycle task reference (`self._connection_task`);
`done` is the value `task.done()` would return. -/
structure ConnTask where
  done : Bool
deriving DecidableEq

/-- The mutable fields of `MCPHandler`: the session handle (opaque, `none`
when `self.session is None`) and the lifecycle task reference. -/
structure MCPState where
  session : Option Unit
  connectionTask : Option ConnTask
deriving DecidableEq

/-- `MCPHandler.is_connected` (mcp_handler.py:24-30):
`self.session is not None and self._connection_task is not None and
not self._connection_task.done()`. -/
def MCPHandler.is_connected (st : MCPState) : Bool :=
  st.session.isSome &&
    (match st.connectionTask with
     | some t => !t.done
     | none => false)

/-- A tool descriptor as returned by the MCP session (`tool.name`,
`tool.description`, `tool.inputSchema`; `none` models a missing
`inputSchema` attribute, `some .null` an attribute that is `None`). -/
structure MCPTool where
  name : String
  description : String
  inputSchema : Option Json
deriving DecidableEq

/-- One item of `tool_result.content` from `session.call_tool`, tagged by
the `isinstance` checks of `MCPHandler.call_tool` (mcp_handler.py:186-197). -/
inductive MCPContentItem where
  | text (text : String) : MCPContentItem
  | jsonC (jsonValue : Json) : MCPContentItem
  | image (format : String) : MCPContentItem
  | other (asString : String) : MCPContentItem
deriving DecidableEq

/-- The model-facing `function` part of an OpenAI tool definition. -/
structure OpenAIFunctionDef where
  name : String
  description : String
  parameters : Json
deriving DecidableEq

/-- One entry of the list built by `format_tools_for_openai`
(llm_handler.py:52-59): `{"type": "function", "function": {...}}`. -/
structure OpenAIToolDef where
  type : String
  function : OpenAIFunctionDef
deriving DecidableEq

/-- Text sent to `AppGUI.update_output`.  Fixed literals are `ofString`;
a Python f-string interpolating dynamic data is kept as a constructor
applied to the interpolated values (the rendering is injective, so nothing
about the program is lost). -/
inductive OutputText where
  | ofString (s : String) : OutputText
  | failedResponse (asString : String) : OutputText
  | decodeError (name raw : String) : OutputText
  | toolCallDisplay (name : String) (args : Json) : OutputText
  | toolResponseDisplay (result : Json) : OutputText
  | listToolsLog (tools : List MCPTool) : OutputText
  | listToolsError (message : String) : OutputText
  | callToolError (name message : String) : OutputText
  | turnError (message : String) : OutputText
  | traceback (info : String) : OutputText
deriving DecidableEq

/-- One observable step of the program: an emission to the presentation
boundary (`update_output` / `update_status`, routed through
`_handle_handler_update` for the handlers) or a suspension point that
reaches the network (a completion request, a tool-catalog query, or a
forwarded tool invocation). -/
inductive Action where
  | emitOutput (text : OutputText) (role : String) : Action
  | emitStatus (text : String) : Action
  | listToolsQuery : Action
  | completionCall (tools : Option (List OpenAIToolDef)) : Action
  | toolInvoke (name : String) (args : Json) : Action
deriving DecidableEq

/-- `True` for the actions that touch the network. -/
def isNetworkAction : Action → Bool
  | .listToolsQuery => true
  | .completionCall _ => true
  | .toolInvoke _ _ => true
  | _ => false

/-- `MCPHandler.list_tools` (mcp_handler.py:146-172).  `outcome` is what
`await self.session.list_tools()` would produce: the tool list, or the
exception message caught by the `except` clause.  Returns the value
returned to the caller plus the logged actions; it is a total function
(the `except` clause means no failure propagates). -/
def MCPHandler.list_tools (st : MCPState) (outcome : Except String (List MCPTool))
    (log : Bool) : Option (List MCPTool) × List Action :=
  if !MCPHandler.is_connected st then
    (none, [.emitOutput (.ofString "Not connected to MCP server.") "system"])
  else
    match outcome with
    | .ok tools_list =>
        (some tools_list,
         if log then [.emitOutput (.listToolsLog tools_list) "system"] else [])
    | .error e =>
        (none, [.emitOutput (.listToolsError e) "system",
                .emitOutput (.traceback e) "system"])

/-- The serialization of one content item (mcp_handler.py:186-197). -/
def serializeContentItem : MCPContentItem → Json
  | .text t => .obj [("type", .str "text"), ("text", .str t)]
  | .jsonC v => .obj [("type", .str "json"), ("json", v)]
  | .image fmt => .obj [("type", .str "image"), ("format", .str fmt),
                        ("description", .str "Image data (not serialized)")]
  | .other s => .obj [("type", .str "unknown"), ("content", .str s)]

/-- `MCPHandler.call_tool` (mcp_handler.py:174-206).  `outcome` is what
`await self.session.call_tool(...)` would produce (content items, or the
message of any exception raised during the call — including failures while
normalizing the result).  Total: every failure becomes a structured
`{"error": ...}` payload. -/
def MCPHandler.call_tool (st : MCPState) (outcome : Except String (List MCPContentItem))
    (tool_name : String) (arguments : Json) : Json × List Action :=
  if !MCPHandler.is_connected st then
    (.obj [("error", .str "Not connected to MCP server.")],
     [.emitOutput (.ofString "Not connected to MCP server.") "system"])
  else
    match outcome with
    | .ok items => (.arr (items.map serializeContentItem), [])
    | .error e =>
        (.obj [("error", .str e)],
         [.emitOutput (.callToolError tool_name e) "system",
          .emitOutput (.traceback e) "system"])

/-! ### `disconnect` and the lifecycle-task cleanup paths

In `asyncio`, `disconnect()` (mcp_handler.py:128-144) cancels a running
lifecycle task and awaits it.  Cancellation makes `_mcp_session_runner`
(mcp_handler.py:39-93) run its `finally` block (`CancelledError` is not
caught by its `except Exception` clause), then the task completes and its
done-callback `_handle_connection_task_completion` (mcp_handler.py:110-125)
runs, and finally `disconnect` resumes past `await self._connection_task`
with the `CancelledError` it catches.  Each of the three paths below is the
trace of one of those code blocks; all three run, in this order, on the
single event loop. -/

/-- The `finally` block of `_mcp_session_runner` (mcp_handler.py:89-93):
log, clear `self.session` and `self._connection_task`, emit "Disconnected". -/
def runnerCleanupActions : List Action :=
  [.emitOutput (.ofString "MCP connection closed.") "system",
   .emitStatus "Disconnected"]

/-- `_handle_connection_task_completion` on a cancelled task
(mcp_handler.py:110-125): the `except asyncio.CancelledError` log plus the
`finally` block that clears the fields and emits "Disconnected" again. -/
def doneCallbackCancelledActions : List Action :=
  [.emitOutput (.ofString "MCP connection task was cancelled.") "system",
   .emitStatus "Disconnected"]

/-- `MCPHandler.disconnect` (mcp_handler.py:128-144).  When the lifecycle
task is running it is cancelled and awaited, which interleaves the runner's
`finally` block and the done-callback before `disconnect` resumes; the
resulting `CancelledError` is caught and logged.  In every case the fields
are cleared and a final "Disconnected" status is emitted unconditionally.
(The `if self.session and not self.session.is_closed` block has a `pass`
body and is skipped here: after the cleanup paths `self.session` is
always `None` by the time it is reached.) -/
def MCPHandler.disconnect (st : MCPState) : MCPState × List Action :=
  let cancelActions :=
    match st.connectionTask with
    | some t =>
        if !t.done then
          runnerCleanupActions ++ doneCallbackCancelledActions ++
            [.emitOutput (.ofString "MCP connection cancelled.") "system"]
        else []
    | none => []
  (⟨none, none⟩, cancelActions ++ [.emitStatus "Disconnected"])

/-- The C7 scenario: `disconnect()` while `connect()`'s lifecycle task is
still running (mid-handshake: task alive, session handle not yet set). -/
def disconnectDuringConnect : MCPState × List Action :=
  MCPHandler.disconnect ⟨none, some ⟨false⟩⟩

/-- `True` exactly for the `"Disconnected"` status emission. -/
def isDisconnectedStatus : Action → Bool
  | .emitStatus s => s = "Disconnected"
  | _ => false

/-! ## Completion client (`llm_handler.py`) -/

/-- The assistant message object obtained from
`response.choices[0].message` (or synthesized on failure): `role`,
`content`, `tool_calls`. -/
structure AssistantMessage where
  role : String
  content : Option String
  toolCalls : Option (List ToolCallRequest)
deriving DecidableEq

/-- The empty-object schema `{"type": "object", "properties": {}}` used as
the default/fallback parameter schema (llm_handler.py:47-50). -/
def emptyObjectSchema : Json :=
  .obj [("type", .str "object"), ("properties", .obj [])]

/-- The body of the loop of `format_tools_for_openai`
(llm_handler.py:45-59) for one descriptor: take `inputSchema` if the
attribute exists, else the default; replace it by the empty-object schema
unless it is a dict; and wrap it in the OpenAI tool-definition shape. -/
def formatToolForOpenai (tool : MCPTool) : OpenAIToolDef :=
  let parameters :=
    match tool.inputSchema with
    | some p => p
    | none => emptyObjectSchema
  let parameters := if !parameters.isDict then emptyObjectSchema else parameters
  { type := "function",
    function := { name := tool.name, description := tool.description,
                  parameters := parameters } }

/-- `LLMHandler.format_tools_for_openai` (llm_handler.py:40-60); the early
`return []` for a falsy argument, then the loop. -/
def format_tools_for_openai (mcp_tools : List MCPTool) : List OpenAIToolDef :=
  match mcp_tools with
  | [] => []
  | _ => mcp_tools.map formatToolForOpenai

/-- `LLMHandler.get_completion` (llm_handler.py:62-89).  `llmInitialized`
is `self.llm is not None`; `apiResult` is what the
`self.llm.chat.completions.create(...)` exchange would produce (the chosen
message, or the message of the exception caught by the `except` clause).
`Except.error` models the `raise ValueError` on an uninitialized client —
the only way this function can raise. -/
def LLMHandler.get_completion (llmInitialized : Bool) (deployment : String)
    (messages : List Message) (tools : Option (List OpenAIToolDef))
    (apiResult : Except String AssistantMessage) : Except String AssistantMessage :=
  if !llmInitialized then .error "LLM client is not initialized."
  else
    .ok (match apiResult with
         | .ok m => m
         | .error e =>
             { role := "assistant",
               content := some ("Error communicating with LLM: " ++ e),
               toolCalls := none })

/-! ## Conversation orchestrator (`controller.py`) -/

/-- The system prompt installed at index 0 of the history
(controller.py:12-33,47).  The literal is abbreviated to its first
sentence; no claim depends on the text, only on the message's identity. -/
def SYSTEM_PROMPT : String :=
  "You are Assistant, a helpful, conversational AI assistant interacting with a user via a chat interface."

/-- The initial history entry `{"role": "system", "content": SYSTEM_PROMPT}`. -/
def systemMessage : Message :=
  { role := "system", content := some (.lit SYSTEM_PROMPT) }

/-- `self.messages` right after `AppController.__init__` (controller.py:47). -/
def initialMessages : List Message := [systemMessage]

/-- The user message appended by `send_message_to_llm` (controller.py:132). -/
def userMessage (user_input : String) : Message :=
  { role := "user", content := some (.lit user_input) }

/-- Python truthiness of an optional string (`None` and `""` are falsy). -/
def strTruthy : Option String → Option String
  | some s => if s = "" then none else some s
  | none => none

/-- Python truthiness of an optional list (`None` and `[]` are falsy). -/
def truthyList {α : Type} : Option (List α) → Option (List α)
  | some (x :: xs) => some (x :: xs)
  | _ => none

/-- The dict conversion of an assistant response (controller.py:186-197):
`model_dump` / manual conversion both keep role, content and tool_calls. -/
def assistantDump (m : AssistantMessage) : Message :=
  { role := m.role, content := m.content.map .lit, toolCalls := m.toolCalls }

/-- The tool-role history entry appended for one tool-call request
(controller.py:232-237 and 264-269); `result` is the payload whose
`json.dumps` becomes the `content` string. -/
def toolMessage (tc : ToolCallRequest) (result : Json) : Message :=
  { role := "tool", content := some (.dumps result),
    toolCallId := some tc.id, name := some tc.function.name }

/-- `{"error": "MCP server not connected."}` (controller.py:236). -/
def notConnectedErrorJson : Json := .obj [("error", .str "MCP server not connected.")]

/-- `{"error": "Invalid arguments JSON"}` (controller.py:248). -/
def invalidArgsJson : Json := .obj [("error", .str "Invalid arguments JSON")]

/-- The error tool-responses synthesized when the model requests tool calls
while the MCP server is not connected (controller.py:231-237): one per
request, in request order. -/
def disconnectedToolMessages (tool_calls : List ToolCallRequest) : List Message :=
  tool_calls.map fun tc => toolMessage tc notConnectedErrorJson

/-- `f"Reached maximum tool call iterations ({max_iterations})."` with
`max_iterations = 5` (controller.py:273). -/
def maxIterationsNotice : String := "Reached maximum tool call iterations (5)."

/-- `f"LLM Call {iterations}..."` (controller.py:171). -/
def llmCallStatus (iterations : Nat) : String :=
  "LLM Call " ++ toString iterations ++ "..."

/-- The outcome of one `await self.llm_handler.get_completion(...)`, as the
controller observes it: a raised exception (only the uninitialized-client
`ValueError`), a value without a `role` attribute (the controller's
defensive `hasattr` check, controller.py:181), or an assistant message. -/
inductive LLMTurnResponse where
  | raised (e : String) : LLMTurnResponse
  | invalid (asString : String) : LLMTurnResponse
  | msg (m : AssistantMessage) : LLMTurnResponse

/-- The environment of one conversation turn: everything outside the
orchestrator's own control.  `responses it` is the completion outcome of
iteration `it` (1-based); `stateAtIter it` is the `MCPHandler` state at the
connection check of iteration `it` (controller.py:228); `stateAtCall it j`
and `callOutcome it j` are the handler state and session outcome for the
`j`-th (0-based) tool call of iteration `it`.  Letting the state vary
between suspension points over-approximates the reachable schedules, so
every theorem quantified over `TurnEnv` covers the real ones. -/
structure TurnEnv where
  llmInitialized : Bool
  stateAtStart : MCPState
  listOutcome : Except String (List MCPTool)
  responses : Nat → LLMTurnResponse
  stateAtIter : Nat → MCPState
  stateAtCall : Nat → Nat → MCPState
  callOutcome : Nat → Nat → Except String (List MCPContentItem)

/-- The `for tool_call in tool_calls` loop (controller.py:242-269) in the
connected case: decode the arguments (a decode failure yields the
structured error and the call is never attempted), otherwise display the
call, invoke the tool session manager, display the response; in both cases
append the tool-role message.  Returns the appended messages (in request
order) and the emitted actions. -/
def runToolCalls (env : TurnEnv) (it : Nat) :
    Nat → List ToolCallRequest → List Message × List Action
  | _, [] => ([], [])
  | j, tc :: rest =>
    let (newMsg, acts) :=
      match tc.function.arguments with
      | .invalid raw =>
          (toolMessage tc invalidArgsJson,
           [.emitOutput (.decodeError tc.function.name raw) "system"])
      | .valid args =>
          let (result, callActs) :=
            MCPHandler.call_tool (env.stateAtCall it j) (env.callOutcome it j)
              tc.function.name args
          (toolMessage tc result,
           [.emitOutput (.toolCallDisplay tc.function.name args) "tool_call",
            .toolInvoke tc.function.name args] ++ callActs ++
           [.emitOutput (.toolResponseDisplay result) "tool_response"])
    let (restMsgs, restActs) := runToolCalls env it (j + 1) rest
    (newMsg :: restMsgs, acts ++ restActs)

/-- How the `while` loop of `_process_llm_interaction` ended: a `break`, the
`while iterations < max_iterations` condition failing, or an exception
propagating to the turn's `except` handler. -/
inductive LoopExit where
  | broke : LoopExit
  | exhausted : LoopExit
  | excepted (e : String) : LoopExit
deriving DecidableEq

/-- `tools=openai_tool_definitions if openai_tool_definitions else None`
(controller.py:177): the tool catalog passed to the completion call, with a
falsy (empty) catalog replaced by `None`. -/
def toolsArg (toolDefs : List OpenAIToolDef) : Option (List OpenAIToolDef) :=
  match toolDefs with
  | [] => none
  | d :: ds => some (d :: ds)

/-- The display of the assistant's textual content, when truthy
(controller.py:201-202). -/
def assistantContentActions (m : AssistantMessage) : List Action :=
  match strTruthy m.content with
  | some c => [.emitOutput (.ofString c) "assistant"]
  | none => []

/-- The diagnostic placeholder when a response has neither text nor tool
calls (controller.py:209-210). -/
def noResponseDiag (m : AssistantMessage) : List Action :=
  match strTruthy m.content with
  | none => [.emitOutput (.ofString "(No text response and no tool call)") "system"]
  | some _ => []

/-- The status + completion-request actions at the top of one loop pass
(controller.py:171-178). -/
def completionCallActions (toolDefs : List OpenAIToolDef) (it : Nat) : List Action :=
  [.emitStatus (llmCallStatus it), .completionCall (toolsArg toolDefs)]

/-- The `while iterations < max_iterations` loop (controller.py:169-270),
with `fuel = max_iterations - iterations` remaining passes.  Returns the
history, the emitted actions, the final value of `iterations` (= the number
of completion calls performed) and how the loop ended. -/
def loopRun (env : TurnEnv) (toolDefs : List OpenAIToolDef) :
    Nat → Nat → List Message → List Message × List Action × Nat × LoopExit
  | 0, iterations, msgs => (msgs, [], iterations, .exhausted)
  | fuel + 1, iterations, msgs =>
    match env.responses (iterations + 1) with
    | .raised e =>
        (msgs, completionCallActions toolDefs (iterations + 1), iterations + 1, .excepted e)
    | .invalid r =>
        (msgs, completionCallActions toolDefs (iterations + 1) ++
           [.emitOutput (.failedResponse r) "system"], iterations + 1, .broke)
    | .msg m =>
      match truthyList m.toolCalls with
      | none =>
          -- no tool calls: the turn ends (controller.py:207-211)
          (msgs, completionCallActions toolDefs (iterations + 1) ++
             assistantContentActions m ++ noResponseDiag m, iterations + 1, .broke)
      | some tcs =>
          -- append the assistant message unless it equals the last entry
          -- (controller.py:216-219); the `elif` diagnostic at lines 220-224
          -- is unreachable in this branch because the dump carries the
          -- (truthy) tool_calls.
          let msgs1 := if msgs.getLast? = some (assistantDump m) then msgs
            else msgs ++ [assistantDump m]
          if MCPHandler.is_connected (env.stateAtIter (iterations + 1)) = false then
            let r := loopRun env toolDefs fuel (iterations + 1)
              (msgs1 ++ disconnectedToolMessages tcs)
            (r.1, completionCallActions toolDefs (iterations + 1) ++
               assistantContentActions m ++
               [.emitOutput (.ofString "LLM requested tool call, but not connected to MCP server.") "system"] ++
               r.2.1,
             r.2.2.1, r.2.2.2)
          else
            let r := loopRun env toolDefs fuel (iterations + 1)
              (msgs1 ++ (runToolCalls env (iterations + 1) 0 tcs).1)
            (r.1, completionCallActions toolDefs (iterations + 1) ++
               assistantContentActions m ++ (runToolCalls env (iterations + 1) 0 tcs).2 ++
               r.2.1,
             r.2.2.1, r.2.2.2)

/-- The tool-catalog refresh at the start of `_process_llm_interaction`
(controller.py:151-163): when connected, fetch and format the catalog;
otherwise note the degraded mode.  Returns the OpenAI tool definitions and
the emitted actions. -/
def catalogPhase (env : TurnEnv) : List OpenAIToolDef × List Action :=
  if MCPHandler.is_connected env.stateAtStart then
    let (result, listActs) := MCPHandler.list_tools env.stateAtStart env.listOutcome false
    match truthyList result with
    | some ts => (format_tools_for_openai ts, .listToolsQuery :: listActs)
    | none =>
        ([], .listToolsQuery :: listActs ++
          [.emitOutput (.ofString "Connected to MCP, but no tools found or error listing tools.") "system"])
  else
    ([], [.emitOutput (.ofString "Not connected to MCP server. Proceeding without tools.") "system"])

/-- `AppController._process_llm_interaction` (controller.py:148-279):
catalog phase, the bounded loop, the `iterations >= max_iterations` notice
(skipped when an exception reached the turn's `except` handler, which
reports the error and a traceback instead), and the `finally` status
reset. -/
def process_llm_interaction (env : TurnEnv) (msgs : List Message) :
    List Message × List Action :=
  let (toolDefs, catActs) := catalogPhase env
  let (msgs1, loopActs, iterations, ex) := loopRun env toolDefs 5 0 msgs
  match ex with
  | .excepted e =>
      (msgs1, catActs ++ loopActs ++
        [.emitOutput (.turnError e) "system", .emitOutput (.traceback e) "system",
         .emitStatus "Ready"])
  | _ =>
      let noticeActs : List Action :=
        if 5 ≤ iterations then [.emitOutput (.ofString maxIterationsNotice) "system"]
        else []
      (msgs1, catActs ++ loopActs ++ noticeActs ++ [.emitStatus "Ready"])

/-- `AppController.send_message_to_llm` (controller.py:124-144): ignore
falsy input; display and append the user message; if the completion client
is not initialized, report, roll back the just-appended user message
(guarded: only a trailing user-role message is popped) and stop; otherwise
start the background turn.  Returns the history, the emitted actions and
whether `_process_llm_interaction` was started. -/
def send_message_to_llm (msgs : List Message) (user_input : String)
    (llmInitialized : Bool) : List Message × List Action × Bool :=
  if user_input = "" then (msgs, [], false)
  else
    let acts0 : List Action := [.emitOutput (.ofString user_input) "user"]
    let msgs1 := msgs ++ [userMessage user_input]
    if !llmInitialized then
      let acts1 := acts0 ++
        [.emitOutput (.ofString "Azure OpenAI client is not initialized. Please check settings.") "system"]
      let msgs2 :=
        match msgs1.getLast? with
        | some m => if m.role = "user" then msgs1.dropLast else msgs1
        | none => msgs1
      (msgs2, acts1, false)
    else
      (msgs1, acts0 ++ [.emitStatus "Processing..."], true)

/-- One full user turn as seen from the presentation boundary:
`send_message_to_llm` followed, when it started one, by the background
`_process_llm_interaction` task. -/
def submitUserInput (msgs : List Message) (user_input : String) (env : TurnEnv) :
    List Message × List Action :=
  let (msgs1, acts, started) := send_message_to_llm msgs user_input env.llmInitialized
  if started then
    let (msgs2, turnActs) := process_llm_interaction env msgs1
    (msgs2, acts ++ turnActs)
  else (msgs1, acts)

/-- A whole session: the history after a sequence of user turns, starting
from the history installed by `AppController.__init__`. -/
def runSession (turns : List (String × TurnEnv)) : List Message :=
  turns.foldl (fun msgs turn => (submitUserInput msgs turn.1 turn.2).1) initialMessages

/-! ## Trace predicates and helper lemmas -/

/-- `True` for the completion-request suspension point. -/
def isCompletionCall : Action → Bool
  | .completionCall _ => true
  | _ => false

/-- `True` exactly for the "maximum iterations" notice
(controller.py:273). -/
def isMaxIterationsNotice : Action → Bool
  | .emitOutput (.ofString s) role => s = maxIterationsNotice && role = "system"
  | _ => false

/-- `True` for the turn-level `except` handler's error report
(controller.py:276). -/
def isTurnErrorReport : Action → Bool
  | .emitOutput (.turnError _) _ => true
  | _ => false

/-- The actions following the first "maximum iterations" notice of a trace
(empty when the trace has none). -/
def afterFirstNotice (trace : List Action) : List Action :=
  (trace.dropWhile (fun a => !isMaxIterationsNotice a)).tail

/-- Actions that are neither a completion call, nor the max-iterations
notice, nor a turn-error report. -/
def benignAction (a : Action) : Bool :=
  !isCompletionCall a && !isMaxIterationsNotice a && !isTurnErrorReport a

theorem dropWhile_append_all {α : Type} {p : α → Bool} {l₁ l₂ : List α}
    (h : ∀ a ∈ l₁, p a = true) :
    (l₁ ++ l₂).dropWhile p = l₂.dropWhile p := by
  induction l₁ with
  | nil => rfl
  | cons a l ih =>
      rw [List.cons_append, List.dropWhile_cons, h a (by simp)]
      exact ih fun a ha => h a (by simp [ha])

theorem countP_eq_zero_of_all {α : Type} {p q : α → Bool} {l : List α}
    (hall : ∀ a ∈ l, q a = true) (himp : ∀ a, q a = true → p a = false) :
    l.countP p = 0 :=
  List.countP_eq_zero.mpr fun a ha => by simp [himp a (hall a ha)]

theorem call_tool_actions_benign (st : MCPState)
    (outcome : Except String (List MCPContentItem)) (tool_name : String)
    (arguments : Json) :
    ∀ a ∈ (MCPHandler.call_tool st outcome tool_name arguments).2,
      benignAction a = true := by
  unfold MCPHandler.call_tool
  split
  · intro a ha
    simp only [List.mem_singleton] at ha
    subst ha
    decide
  · cases outcome with
    | ok items => simp
    | error e =>
        intro a ha
        simp only [List.mem_cons, List.mem_singleton, List.not_mem_nil, or_false] at ha
        rcases ha with rfl | rfl <;> rfl

theorem runToolCalls_actions_benign (env : TurnEnv) (it : Nat) :
    ∀ (j : Nat) (tcs : List ToolCallRequest),
      ∀ a ∈ (runToolCalls env it j tcs).2, benignAction a = true := by
  intro j tcs
  induction tcs generalizing j with
  | nil => simp [runToolCalls]
  | cons tc rest ih =>
      intro a ha
      rw [runToolCalls] at ha
      cases harg : tc.function.arguments with
      | invalid raw =>
          simp only [harg] at ha
          simp only [List.mem_append, List.mem_singleton] at ha
          rcases ha with rfl | ha
          · rfl
          · exact ih (j + 1) a ha
      | valid args =>
          simp only [harg] at ha
          simp only [List.mem_append, List.mem_cons, List.mem_singleton,
            List.not_mem_nil, or_false] at ha
          rcases ha with (((rfl | rfl) | hc) | rfl) | ha
          · rfl
          · rfl
          · exact call_tool_actions_benign _ _ _ _ a hc
          · rfl
          · exact ih (j + 1) a ha

theorem benign_no_completion {l : List Action}
    (h : ∀ a ∈ l, benignAction a = true) : l.countP isCompletionCall = 0 :=
  countP_eq_zero_of_all h fun a hb => by
    simp only [benignAction, Bool.and_eq_true, Bool.not_eq_true'] at hb
    exact hb.1.1

theorem benign_safe {l : List Action} (h : ∀ a ∈ l, benignAction a = true) :
    ∀ a ∈ l, (!isMaxIterationsNotice a && !isTurnErrorReport a) = true := fun a ha => by
  have hb := h a ha
  simp only [benignAction, Bool.and_eq_true] at hb
  simp [hb.1.2, hb.2]

theorem assistantContentActions_benign (m : AssistantMessage) :
    ∀ a ∈ assistantContentActions m, benignAction a = true := by
  unfold assistantContentActions
  cases strTruthy m.content with
  | none => simp
  | some c =>
      intro a ha
      rcases List.mem_singleton.mp ha with rfl
      simp [benignAction, isCompletionCall, isMaxIterationsNotice, isTurnErrorReport]

theorem noResponseDiag_benign (m : AssistantMessage) :
    ∀ a ∈ noResponseDiag m, benignAction a = true := by
  unfold noResponseDiag
  cases strTruthy m.content with
  | some c => simp
  | none =>
      intro a ha
      rcases List.mem_singleton.mp ha with rfl
      decide

theorem completionCallActions_countP (toolDefs : List OpenAIToolDef) (it : Nat) :
    (completionCallActions toolDefs it).countP isCompletionCall = 1 := rfl

theorem completionCallActions_safe (toolDefs : List OpenAIToolDef) (it : Nat) :
    ∀ a ∈ completionCallActions toolDefs it,
      (!isMaxIterationsNotice a && !isTurnErrorReport a) = true := by
  intro a ha
  rcases List.mem_cons.mp ha with rfl | ha
  · rfl
  · rcases List.mem_singleton.mp ha with rfl
    rfl

/-- The invariants of the bounded completion loop: the number of completion
calls it performs equals the final `iterations` value minus the initial one
and is bounded by the fuel; only fuel exhaustion makes `iterations` reach
`iterations₀ + fuel` via the failed `while` test; the loop itself never
emits the max-iterations notice nor a turn-error report; and it only ever
appends to the history. -/
theorem loopRun_spec (env : TurnEnv) (toolDefs : List OpenAIToolDef) :
    ∀ (fuel iterations : Nat) (msgs : List Message),
      (loopRun env toolDefs fuel iterations msgs).2.1.countP isCompletionCall
          = (loopRun env toolDefs fuel iterations msgs).2.2.1 - iterations
      ∧ iterations ≤ (loopRun env toolDefs fuel iterations msgs).2.2.1
      ∧ (loopRun env toolDefs fuel iterations msgs).2.2.1 ≤ iterations + fuel
      ∧ ((loopRun env toolDefs fuel iterations msgs).2.2.2 = LoopExit.exhausted →
           (loopRun env toolDefs fuel iterations msgs).2.2.1 = iterations + fuel)
      ∧ (∀ a ∈ (loopRun env toolDefs fuel iterations msgs).2.1,
           (!isMaxIterationsNotice a && !isTurnErrorReport a) = true)
      ∧ ∃ tail, (loopRun env toolDefs fuel iterations msgs).1 = msgs ++ tail := by
  intro fuel
  induction fuel with
  | zero =>
      intro iters msgs
      refine ⟨by simp [loopRun], by simp [loopRun], by simp [loopRun],
        by simp [loopRun], by simp [loopRun], [], by simp [loopRun]⟩
  | succ n ih =>
      intro iters msgs
      simp only [loopRun]
      cases hr : env.responses (iters + 1) with
      | raised e =>
          dsimp only
          refine ⟨?_, by omega, by omega, by simp, ?_, [], by simp⟩
          · rw [completionCallActions_countP]
            omega
          · exact completionCallActions_safe toolDefs (iters + 1)
      | invalid r =>
          dsimp only
          refine ⟨?_, by omega, by omega, by simp, ?_, [], by simp⟩
          · rw [List.countP_append, completionCallActions_countP]
            simp [isCompletionCall]
          · intro a ha
            rcases List.mem_append.mp ha with ha | ha
            · exact completionCallActions_safe toolDefs (iters + 1) a ha
            · rcases List.mem_singleton.mp ha with rfl
              rfl
      | msg m =>
          dsimp only
          cases hct : truthyList m.toolCalls with
          | none =>
              dsimp only
              refine ⟨?_, by omega, by omega, by simp, ?_, [], by simp⟩
              · rw [List.countP_append, List.countP_append,
                  completionCallActions_countP,
                  benign_no_completion (assistantContentActions_benign m),
                  benign_no_completion (noResponseDiag_benign m)]
                omega
              · intro a ha
                rcases List.mem_append.mp ha with ha | ha
                · rcases List.mem_append.mp ha with ha | ha
                  · exact completionCallActions_safe toolDefs (iters + 1) a ha
                  · exact benign_safe (assistantContentActions_benign m) a ha
                · exact benign_safe (noResponseDiag_benign m) a ha
          | some tcs =>
              dsimp only
              cases hconn : MCPHandler.is_connected (env.stateAtIter (iters + 1)) with
              | false =>
                  rw [if_pos rfl]
                  rcases h2 : loopRun env toolDefs n (iters + 1)
                      ((if msgs.getLast? = some (assistantDump m) then msgs
                        else msgs ++ [assistantDump m]) ++ disconnectedToolMessages tcs)
                    with ⟨m2, a2, i2, e2⟩
                  have IH := ih (iters + 1)
                      ((if msgs.getLast? = some (assistantDump m) then msgs
                        else msgs ++ [assistantDump m]) ++ disconnectedToolMessages tcs)
                  rw [h2] at IH
                  dsimp only at IH
                  obtain ⟨IH1, IH2, IH3, IH4, IH5, tail, IHtail⟩ := IH
                  dsimp only
                  refine ⟨?_, by omega, by omega, ?_, ?_, ?_⟩
                  · simp only [List.countP_append, completionCallActions_countP,
                      benign_no_completion (assistantContentActions_benign m), IH1]
                    simp [isCompletionCall]
                    omega
                  · intro hex
                    have := IH4 hex
                    omega
                  · intro a ha
                    simp only [List.mem_append, List.mem_singleton] at ha
                    rcases ha with ((ha | ha) | rfl) | ha
                    · exact completionCallActions_safe toolDefs (iters + 1) a ha
                    · exact benign_safe (assistantContentActions_benign m) a ha
                    · decide
                    · exact IH5 a ha
                  · rw [IHtail]
                    by_cases hgl : msgs.getLast? = some (assistantDump m)
                    · exact ⟨disconnectedToolMessages tcs ++ tail, by simp [hgl]⟩
                    · exact ⟨[assistantDump m] ++ disconnectedToolMessages tcs ++ tail,
                        by simp [hgl]⟩
              | true =>
                  rw [if_neg (by decide)]
                  rcases h2 : loopRun env toolDefs n (iters + 1)
                      ((if msgs.getLast? = some (assistantDump m) then msgs
                        else msgs ++ [assistantDump m]) ++ (runToolCalls env (iters + 1) 0 tcs).1)
                    with ⟨m2, a2, i2, e2⟩
                  have IH := ih (iters + 1)
                      ((if msgs.getLast? = some (assistantDump m) then msgs
                        else msgs ++ [assistantDump m]) ++ (runToolCalls env (iters + 1) 0 tcs).1)
                  rw [h2] at IH
                  dsimp only at IH
                  obtain ⟨IH1, IH2, IH3, IH4, IH5, tail, IHtail⟩ := IH
                  dsimp only
                  refine ⟨?_, by omega, by omega, ?_, ?_, ?_⟩
                  · simp only [List.countP_append, completionCallActions_countP,
                      benign_no_completion (assistantContentActions_benign m),
                      benign_no_completion (runToolCalls_actions_benign env (iters + 1) 0 tcs),
                      IH1]
                    omega
                  · intro hex
                    have := IH4 hex
                    omega
                  · intro a ha
                    simp only [List.mem_append] at ha
                    rcases ha with ((ha | ha) | ha) | ha
                    · exact completionCallActions_safe toolDefs (iters + 1) a ha
                    · exact benign_safe (assistantContentActions_benign m) a ha
                    · exact benign_safe (runToolCalls_actions_benign env (iters + 1) 0 tcs) a ha
                    · exact IH5 a ha
                  · rw [IHtail]
                    by_cases hgl : msgs.getLast? = some (assistantDump m)
                    · exact ⟨(runToolCalls env (iters + 1) 0 tcs).1 ++ tail, by simp [hgl]⟩
                    · exact ⟨[assistantDump m] ++ (runToolCalls env (iters + 1) 0 tcs).1 ++ tail,
                        by simp [hgl]⟩

theorem list_tools_actions_benign (st : MCPState)
    (outcome : Except String (List MCPTool)) (log : Bool) :
    ∀ a ∈ (MCPHandler.list_tools st outcome log).2, benignAction a = true := by
  unfold MCPHandler.list_tools
  split
  · intro a ha
    rcases List.mem_singleton.mp ha with rfl
    decide
  · cases outcome with
    | ok ts =>
        cases log with
        | false => simp
        | true =>
            intro a ha
            rcases List.mem_singleton.mp ha with rfl
            rfl
    | error e =>
        intro a ha
        rcases List.mem_cons.mp ha with rfl | ha
        · rfl
        · rcases List.mem_singleton.mp ha with rfl
          rfl

theorem catalogPhase_benign (env : TurnEnv) :
    ∀ a ∈ (catalogPhase env).2, benignAction a = true := by
  unfold catalogPhase
  split
  · rcases hlt : MCPHandler.list_tools env.stateAtStart env.listOutcome false
      with ⟨r, acts⟩
    dsimp only
    have hacts : ∀ a ∈ acts, benignAction a = true := by
      have h := list_tools_actions_benign env.stateAtStart env.listOutcome false
      rw [hlt] at h
      exact h
    cases truthyList r with
    | some ts =>
        intro a ha
        rcases List.mem_cons.mp ha with rfl | ha
        · rfl
        · exact hacts a ha
    | none =>
        intro a ha
        rcases List.mem_cons.mp ha with rfl | ha
        · rfl
        · rcases List.mem_append.mp ha with ha | ha
          · exact hacts a ha
          · rcases List.mem_singleton.mp ha with rfl
            decide
  · intro a ha
    rcases List.mem_singleton.mp ha with rfl
    decide

theorem safe_no_notice {l : List Action}
    (h : ∀ a ∈ l, (!isMaxIterationsNotice a && !isTurnErrorReport a) = true) :
    l.countP isMaxIterationsNotice = 0 :=
  List.countP_eq_zero.mpr fun a ha => by
    have hb := h a ha
    simp only [Bool.and_eq_true, Bool.not_eq_true'] at hb
    simp [hb.1]

theorem safe_no_turn_error {l : List Action}
    (h : ∀ a ∈ l, (!isMaxIterationsNotice a && !isTurnErrorReport a) = true) :
    l.any isTurnErrorReport = false := by
  rw [List.any_eq_false]
  intro a ha
  have hb := h a ha
  simp only [Bool.and_eq_true, Bool.not_eq_true'] at hb
  simp [hb.2]

theorem benign_to_safe {l : List Action} (h : ∀ a ∈ l, benignAction a = true) :
    ∀ a ∈ l, (!isMaxIterationsNotice a && !isTurnErrorReport a) = true :=
  benign_safe h

theorem safe_dropWhile {l : List Action}
    (h : ∀ a ∈ l, (!isMaxIterationsNotice a && !isTurnErrorReport a) = true) :
    l.dropWhile (fun a => !isMaxIterationsNotice a) = [] :=
  List.dropWhile_eq_nil_iff.mpr fun a ha => by
    have hb := h a ha
    simp only [Bool.and_eq_true] at hb
    exact hb.1

theorem safe_no_any_notice {l : List Action}
    (h : ∀ a ∈ l, (!isMaxIterationsNotice a && !isTurnErrorReport a) = true) :
    l.any isMaxIterationsNotice = false := by
  rw [List.any_eq_false]
  intro a ha
  have hb := h a ha
  simp only [Bool.and_eq_true, Bool.not_eq_true'] at hb
  simp [hb.1]

/-! ## Claim theorems -/

theorem iteration_ceiling_tail (catActs lacts : List Action) (itF : Nat)
    (hcats : ∀ a ∈ catActs, (!isMaxIterationsNotice a && !isTurnErrorReport a) = true)
    (hcatc : catActs.countP isCompletionCall = 0)
    (H1 : lacts.countP isCompletionCall = itF)
    (H3 : itF ≤ 5)
    (H5 : ∀ a ∈ lacts, (!isMaxIterationsNotice a && !isTurnErrorReport a) = true) :
    ((catActs ++ lacts ++
        (if 5 ≤ itF then [Action.emitOutput (.ofString maxIterationsNotice) "system"] else []) ++
        [Action.emitStatus "Ready"]).countP isCompletionCall ≤ 5)
    ∧ ((catActs ++ lacts ++
        (if 5 ≤ itF then [Action.emitOutput (.ofString maxIterationsNotice) "system"] else []) ++
        [Action.emitStatus "Ready"]).countP isMaxIterationsNotice =
        if (catActs ++ lacts ++
            (if 5 ≤ itF then [Action.emitOutput (.ofString maxIterationsNotice) "system"] else []) ++
            [Action.emitStatus "Ready"]).any isTurnErrorReport then 0
        else if (catActs ++ lacts ++
            (if 5 ≤ itF then [Action.emitOutput (.ofString maxIterationsNotice) "system"] else []) ++
            [Action.emitStatus "Ready"]).countP isCompletionCall = 5 then 1
        else 0)
    ∧ (afterFirstNotice (catActs ++ lacts ++
        (if 5 ≤ itF then [Action.emitOutput (.ofString maxIterationsNotice) "system"] else []) ++
        [Action.emitStatus "Ready"]) =
        if (catActs ++ lacts ++
            (if 5 ≤ itF then [Action.emitOutput (.ofString maxIterationsNotice) "system"] else []) ++
            [Action.emitStatus "Ready"]).any isMaxIterationsNotice then
          [Action.emitStatus "Ready"]
        else []) := by
  have hcount : (catActs ++ lacts ++
      (if 5 ≤ itF then [Action.emitOutput (.ofString maxIterationsNotice) "system"] else []) ++
      [Action.emitStatus "Ready"]).countP isCompletionCall = itF := by
    by_cases h5 : 5 ≤ itF <;>
      simp [h5, List.countP_append, hcatc, H1, isCompletionCall]
  have hnoerr : (catActs ++ lacts ++
      (if 5 ≤ itF then [Action.emitOutput (.ofString maxIterationsNotice) "system"] else []) ++
      [Action.emitStatus "Ready"]).any isTurnErrorReport = false := by
    rw [List.any_eq_false]
    intro a ha
    simp only [List.mem_append, List.mem_singleton] at ha
    rcases ha with ((ha | ha) | ha) | rfl
    · have hb := hcats a ha
      simp only [Bool.and_eq_true, Bool.not_eq_true'] at hb
      simp [hb.2]
    · have hb := H5 a ha
      simp only [Bool.and_eq_true, Bool.not_eq_true'] at hb
      simp [hb.2]
    · by_cases h5 : 5 ≤ itF
      · rw [if_pos h5] at ha
        rcases List.mem_singleton.mp ha with rfl
        simp [isTurnErrorReport]
      · rw [if_neg h5] at ha
        simp at ha
    · simp [isTurnErrorReport]
  refine ⟨by omega, ?_, ?_⟩
  · rw [hnoerr]
    rw [if_neg (show ¬(false = true) by simp)]
    rw [hcount]
    by_cases h5 : 5 ≤ itF
    · have h5' : itF = 5 := le_antisymm H3 h5
      rw [if_pos h5, if_pos h5']
      simp only [List.countP_append, safe_no_notice hcats, safe_no_notice H5]
      simp [isMaxIterationsNotice]
    · have hne : ¬(itF = 5) := fun hc => h5 (le_of_eq hc.symm)
      rw [if_neg h5, if_neg hne]
      simp only [List.countP_append, safe_no_notice hcats, safe_no_notice H5]
      simp [isMaxIterationsNotice]
  · by_cases h5 : 5 ≤ itF
    · rw [if_pos h5]
      have hanyT : (catActs ++ lacts ++
          [Action.emitOutput (.ofString maxIterationsNotice) "system"] ++
          [Action.emitStatus "Ready"]).any isMaxIterationsNotice = true := by
        rw [List.any_eq_true]
        refine ⟨Action.emitOutput (.ofString maxIterationsNotice) "system", by simp, ?_⟩
        simp [isMaxIterationsNotice]
      rw [hanyT, if_pos rfl]
      unfold afterFirstNotice
      rw [List.append_assoc, List.append_assoc,
        dropWhile_append_all (fun a ha => (Bool.and_eq_true _ _ |>.mp (hcats a ha)).1),
        dropWhile_append_all (fun a ha => (Bool.and_eq_true _ _ |>.mp (H5 a ha)).1)]
      rw [List.singleton_append, List.dropWhile_cons]
      simp [isMaxIterationsNotice]
    · rw [if_neg h5]
      have hanyF : (catActs ++ lacts ++ [] ++
          [Action.emitStatus "Ready"]).any isMaxIterationsNotice = false := by
        rw [List.any_eq_false]
        intro a ha
        simp only [List.mem_append, List.mem_singleton, List.not_mem_nil,
          or_false, false_or] at ha
        rcases ha with (ha | ha) | rfl
        · have hb := hcats a ha
          simp only [Bool.and_eq_true, Bool.not_eq_true'] at hb
          simp [hb.1]
        · have hb := H5 a ha
          simp only [Bool.and_eq_true, Bool.not_eq_true'] at hb
          simp [hb.1]
        · simp [isMaxIterationsNotice]
      rw [hanyF, if_neg (show ¬(false = true) by simp)]
      unfold afterFirstNotice
      rw [List.append_assoc, List.append_assoc,
        dropWhile_append_all (fun a ha => (Bool.and_eq_true _ _ |>.mp (hcats a ha)).1),
        dropWhile_append_all (fun a ha => (Bool.and_eq_true _ _ |>.mp (H5 a ha)).1)]
      simp [List.dropWhile, isMaxIterationsNotice]

/-- C1: For every user turn, the iteration loop of
`_process_llm_interaction` executes at most 5 completion calls; the
"maximum iterations" notice is emitted exactly once when the iteration
ceiling is exhausted (i.e. all 5 completion calls were executed and no
exception aborted the turn, observable as the absence of a turn-error
report) and never otherwise; and nothing but the final status reset — in
particular no tool call and no completion call — follows the notice in the
turn's trace. -/
theorem iteration_ceiling_enforced (env : TurnEnv) (msgs : List Message) :
    ((process_llm_interaction env msgs).2.countP isCompletionCall ≤ 5)
    ∧ ((process_llm_interaction env msgs).2.countP isMaxIterationsNotice =
        if (process_llm_interaction env msgs).2.any isTurnErrorReport then 0
        else if (process_llm_interaction env msgs).2.countP isCompletionCall = 5 then 1
        else 0)
    ∧ (afterFirstNotice (process_llm_interaction env msgs).2 =
        if (process_llm_interaction env msgs).2.any isMaxIterationsNotice then
          [Action.emitStatus "Ready"]
        else []) := by
  unfold process_llm_interaction
  rcases hcat : catalogPhase env with ⟨toolDefs, catActs⟩
  dsimp only
  have hcatb : ∀ a ∈ catActs, benignAction a = true := by
    have h := catalogPhase_benign env
    rw [hcat] at h
    exact h
  have hcats := benign_to_safe hcatb
  rcases hl : loopRun env toolDefs 5 0 msgs with ⟨m1, lacts, itF, ex⟩
  have HS := loopRun_spec env toolDefs 5 0 msgs
  rw [hl] at HS
  dsimp only at HS
  obtain ⟨H1, H2, H3, H4, H5, tail, Ht⟩ := HS
  rw [Nat.sub_zero] at H1
  rw [Nat.zero_add] at H3
  cases ex with
  | excepted e =>
      dsimp only
      have htail : ∀ a ∈ ([Action.emitOutput (.turnError e) "system",
          Action.emitOutput (.traceback e) "system", Action.emitStatus "Ready"] : List Action),
          (!isMaxIterationsNotice a) = true := by
        intro a ha
        rcases List.mem_cons.mp ha with rfl | ha
        · rfl
        · rcases List.mem_cons.mp ha with rfl | ha
          · rfl
          · rcases List.mem_singleton.mp ha with rfl
            rfl
      refine ⟨?_, ?_, ?_⟩
      · simp only [List.countP_append, benign_no_completion hcatb, H1]
        simp [isCompletionCall]
        omega
      · have hany : (catActs ++ lacts ++ [Action.emitOutput (.turnError e) "system",
            Action.emitOutput (.traceback e) "system",
            Action.emitStatus "Ready"]).any isTurnErrorReport = true := by
          rw [List.any_eq_true]
          exact ⟨Action.emitOutput (.turnError e) "system", by simp, rfl⟩
        rw [hany, if_pos rfl]
        simp only [List.countP_append, safe_no_notice hcats, safe_no_notice H5]
        simp [isMaxIterationsNotice]
      · have hnone : (catActs ++ lacts ++ [Action.emitOutput (.turnError e) "system",
            Action.emitOutput (.traceback e) "system",
            Action.emitStatus "Ready"]).any isMaxIterationsNotice = false := by
          rw [List.any_eq_false]
          intro a ha
          simp only [List.mem_append] at ha
          rcases ha with (ha | ha) | ha
          · have hb := hcats a ha
            simp only [Bool.and_eq_true, Bool.not_eq_true'] at hb
            simp [hb.1]
          · have hb := H5 a ha
            simp only [Bool.and_eq_true, Bool.not_eq_true'] at hb
            simp [hb.1]
          · have := htail a ha
            simp only [Bool.not_eq_true'] at this
            simp [this]
        rw [hnone, if_neg (show ¬(false = true) by simp)]
        unfold afterFirstNotice
        rw [List.append_assoc,
          dropWhile_append_all (fun a ha => (Bool.and_eq_true _ _ |>.mp (hcats a ha)).1),
          dropWhile_append_all (fun a ha => (Bool.and_eq_true _ _ |>.mp (H5 a ha)).1)]
        rw [List.dropWhile_eq_nil_iff.mpr htail]
        rfl
  | broke =>
      dsimp only
      exact iteration_ceiling_tail catActs lacts itF hcats
        (benign_no_completion hcatb) H1 H3 H5
  | exhausted =>
      dsimp only
      exact iteration_ceiling_tail catActs lacts itF hcats
        (benign_no_completion hcatb) H1 H3 H5

/-- C2: Submitting a non-empty user input appends exactly one user-role
message before any network activity (the send phase performs no network
action at all, and when the client is initialized it leaves the history at
`msgs ++ [userMessage input]`); when the completion client is not
initialized, the whole turn emits exactly the user echo and the error
message — so no tool-catalog fetch and no completion call — and the
history is back to its original value. -/
theorem user_preflight_optimistic_append (msgs : List Message) (user_input : String)
    (env : TurnEnv) (h : user_input ≠ "") :
    ((send_message_to_llm msgs user_input env.llmInitialized).2.1.countP isNetworkAction = 0)
    ∧ (env.llmInitialized = true →
        (send_message_to_llm msgs user_input env.llmInitialized).1 =
          msgs ++ [userMessage user_input])
    ∧ (env.llmInitialized = false →
        submitUserInput msgs user_input env =
          (msgs, [.emitOutput (.ofString user_input) "user",
            .emitOutput (.ofString "Azure OpenAI client is not initialized. Please check settings.") "system"])) := by
  refine ⟨?_, ?_, ?_⟩
  · cases hi : env.llmInitialized <;>
      simp [send_message_to_llm, h, isNetworkAction]
  · intro hi
    simp [send_message_to_llm, h, hi]
  · intro hi
    unfold submitUserInput
    simp [send_message_to_llm, h, hi, List.getLast?_concat, userMessage,
      List.dropLast_concat]

/-- A concrete turn environment with the completion client uninitialized. -/
def witnessEnvUninit : TurnEnv :=
  { llmInitialized := false
    stateAtStart := ⟨none, none⟩
    listOutcome := .ok []
    responses := fun _ => .invalid "resp"
    stateAtIter := fun _ => ⟨none, none⟩
    stateAtCall := fun _ _ => ⟨none, none⟩
    callOutcome := fun _ _ => .ok [] }

theorem user_preflight_optimistic_append_witness :
    submitUserInput initialMessages "hi" witnessEnvUninit =
      (initialMessages, [.emitOutput (.ofString "hi") "user",
        .emitOutput (.ofString "Azure OpenAI client is not initialized. Please check settings.") "system"]) :=
  (user_preflight_optimistic_append initialMessages "hi" witnessEnvUninit
    (by decide)).2.2 rfl

theorem runToolCalls_map_role_id (env : TurnEnv) (it : Nat) :
    ∀ (j : Nat) (tcs : List ToolCallRequest),
      (runToolCalls env it j tcs).1.map (fun msg => (msg.role, msg.toolCallId)) =
        tcs.map (fun tc => ("tool", some tc.id)) := by
  intro j tcs
  induction tcs generalizing j with
  | nil => simp [runToolCalls]
  | cons tc rest ih =>
      rw [runToolCalls]
      cases harg : tc.function.arguments <;>
        simp [harg, toolMessage, ih (j + 1)]

/-- C3: For every assistant response carrying tool-call requests, the
messages the orchestrator appends answer the requests one-to-one, in
request order, each a tool-role message correlated by the request's
`tool_call_id` — both on the connected path (`runToolCalls`, real or error
results) and on the disconnected path, where every synthesized result is
the structured `{"error": "MCP server not connected."}` payload. -/
theorem tool_results_order_preserved (env : TurnEnv) (it : Nat)
    (tool_calls : List ToolCallRequest) :
    ((runToolCalls env it 0 tool_calls).1.map (fun msg => (msg.role, msg.toolCallId)) =
        tool_calls.map (fun tc => ("tool", some tc.id)))
    ∧ ((disconnectedToolMessages tool_calls).map (fun msg => (msg.role, msg.toolCallId)) =
        tool_calls.map (fun tc => ("tool", some tc.id)))
    ∧ ((disconnectedToolMessages tool_calls).map (fun msg => msg.content) =
        tool_calls.map (fun _ => some (Str.dumps notConnectedErrorJson))) := by
  refine ⟨runToolCalls_map_role_id env it 0 tool_calls, ?_, ?_⟩
  · simp [disconnectedToolMessages, toolMessage]
  · simp [disconnectedToolMessages, toolMessage, Function.comp_def]

/-- C4: `call_tool` and `list_tools` are total functions (no exception
reaches the caller): when the session is not connected, `call_tool` returns
the structured `{"error": "Not connected to MCP server."}` payload and
`list_tools` returns `None`; and any failure during an attempted
(connected) tool call is converted into `{"error": <message>}`. -/
theorem tool_ops_never_raise (st : MCPState)
    (callOutcome : Except String (List MCPContentItem))
    (listOutcome : Except String (List MCPTool))
    (log : Bool) (tool_name : String) (arguments : Json) :
    (MCPHandler.is_connected st = false →
      (MCPHandler.call_tool st callOutcome tool_name arguments).1 =
          Json.obj [("error", Json.str "Not connected to MCP server.")]
        ∧ (MCPHandler.list_tools st listOutcome log).1 = none)
    ∧ (∀ e, MCPHandler.is_connected st = true → callOutcome = Except.error e →
        (MCPHandler.call_tool st callOutcome tool_name arguments).1 =
          Json.obj [("error", Json.str e)]) := by
  constructor
  · intro hconn
    constructor
    · simp [MCPHandler.call_tool, hconn]
    · simp [MCPHandler.list_tools, hconn]
  · intro e hconn hout
    simp [MCPHandler.call_tool, hconn, hout]

theorem tool_ops_never_raise_witness :
    ((MCPHandler.call_tool ⟨none, none⟩ (.error "boom") "get_travel_time" (.obj [])).1 =
        Json.obj [("error", Json.str "Not connected to MCP server.")])
    ∧ ((MCPHandler.list_tools ⟨none, none⟩ (.error "boom") false).1 = none)
    ∧ ((MCPHandler.call_tool ⟨some (), some ⟨false⟩⟩ (.error "boom") "get_travel_time"
        (.obj [])).1 = Json.obj [("error", Json.str "boom")]) :=
  ⟨((tool_ops_never_raise ⟨none, none⟩ (.error "boom") (.error "boom") false
      "get_travel_time" (.obj [])).1 rfl).1,
   ((tool_ops_never_raise ⟨none, none⟩ (.error "boom") (.error "boom") false
      "get_travel_time" (.obj [])).1 rfl).2,
   (tool_ops_never_raise ⟨some (), some ⟨false⟩⟩ (.error "boom") (.ok []) false
      "get_travel_time" (.obj [])).2 "boom" rfl rfl⟩

/-- C5: With the client initialized, any transport/API failure during
`get_completion` is not propagated: the result is a synthetic
assistant-role message whose content is a human-readable error description
and whose tool-call list is empty (`None`), for every deployment,
conversation and tool catalog. -/
theorem get_completion_uniform_error_shape (deployment : String)
    (messages : List Message) (tools : Option (List OpenAIToolDef)) (e : String) :
    LLMHandler.get_completion true deployment messages tools (Except.error e) =
      Except.ok { role := "assistant",
                  content := some ("Error communicating with LLM: " ++ e),
                  toolCalls := none } := rfl

/-- C6: `is_connected` is true exactly when the session handle is present
and the lifecycle task exists and is not done; in particular it is false
whenever the task has finished, even while the session handle is still
set. -/
theorem is_connected_conjunction (st : MCPState) :
    (MCPHandler.is_connected st = true ↔
      st.session.isSome = true ∧ ∃ t, st.connectionTask = some t ∧ t.done = false)
    ∧ (∀ t, st.connectionTask = some t → t.done = true →
        MCPHandler.is_connected st = false) := by
  obtain ⟨sess, ct⟩ := st
  constructor
  · cases ct with
    | none => simp [MCPHandler.is_connected]
    | some t => cases ht : t.done <;> simp [MCPHandler.is_connected, ht]
  · intro t hct hdone
    cases hct
    simp [MCPHandler.is_connected, hdone]

theorem is_connected_conjunction_witness :
    MCPHandler.is_connected ⟨some (), some ⟨true⟩⟩ = false :=
  (is_connected_conjunction ⟨some (), some ⟨true⟩⟩).2 ⟨true⟩ rfl rfl

/-- C7 counterexample: in the modelled scenario — `disconnect()` while the
lifecycle task is still running — the "Disconnected" status is NOT emitted
exactly once: the lifecycle task's `finally` block, the task-completion
callback and `disconnect` itself each emit it, for three emissions in
total. -/
theorem disconnect_status_not_emitted_once :
    ¬ (disconnectDuringConnect.2.countP isDisconnectedStatus = 1) := by decide

/-- C7 (amended): when `disconnect()` is called while `connect()`'s
lifecycle task is still running, the task is cancelled and awaited, the
state is forced to Disconnected with the session handle and the task
reference cleared — but the "Disconnected" status event is emitted three
times (once by the lifecycle task's own cleanup, once by the
task-completion callback, once by `disconnect` itself), not once. -/
theorem disconnect_during_connect_cleanup :
    disconnectDuringConnect.1 = ⟨none, none⟩
    ∧ disconnectDuringConnect.2.countP isDisconnectedStatus = 3
    ∧ disconnectDuringConnect.2 =
        runnerCleanupActions ++ doneCallbackCancelledActions ++
          [.emitOutput (.ofString "MCP connection cancelled.") "system"] ++
          [.emitStatus "Disconnected"] := by
  refine ⟨rfl, by decide, by decide⟩

theorem formatToolForOpenai_default (tool : MCPTool)
    (h : ∀ p, tool.inputSchema = some p → p.isDict = false) :
    formatToolForOpenai tool =
      { type := "function",
        function := { name := tool.name, description := tool.description,
                      parameters := emptyObjectSchema } } := by
  unfold formatToolForOpenai
  cases hs : tool.inputSchema with
  | none => rfl
  | some p =>
      have hp := h p hs
      simp [hp]

/-- C8: `format_tools_for_openai` is the element-wise formatting map; a
descriptor whose parameter schema is missing or not a dict is formatted
with the empty-object schema `{"type": "object", "properties": {}}` as its
`parameters` field (the field is always present by construction, never
null); and the empty input yields the empty output. -/
theorem format_tool_catalog_default_schema (mcp_tools : List MCPTool) (tool : MCPTool)
    (h : ∀ p, tool.inputSchema = some p → p.isDict = false) :
    format_tools_for_openai mcp_tools = mcp_tools.map formatToolForOpenai
    ∧ formatToolForOpenai tool =
        { type := "function",
          function := { name := tool.name, description := tool.description,
                        parameters := emptyObjectSchema } }
    ∧ format_tools_for_openai [] = [] := by
  refine ⟨?_, formatToolForOpenai_default tool h, rfl⟩
  cases mcp_tools <;> rfl

theorem format_tool_catalog_default_schema_witness :
    format_tools_for_openai [⟨"get_travel_time", "desc", none⟩] =
      [{ type := "function",
         function := { name := "get_travel_time", description := "desc",
                       parameters := emptyObjectSchema } }]
    ∧ format_tools_for_openai [] = [] := by
  have h := format_tool_catalog_default_schema [⟨"get_travel_time", "desc", none⟩]
    ⟨"get_travel_time", "desc", none⟩ (fun p hp => Option.noConfusion hp)
  exact ⟨by rw [h.1, List.map_singleton, h.2.1], h.2.2⟩

theorem process_llm_interaction_appends (env : TurnEnv) (msgs : List Message) :
    ∃ tail, (process_llm_interaction env msgs).1 = msgs ++ tail := by
  unfold process_llm_interaction
  rcases hcat : catalogPhase env with ⟨toolDefs, catActs⟩
  dsimp only
  rcases hl : loopRun env toolDefs 5 0 msgs with ⟨m1, lacts, itF, ex⟩
  have HS := loopRun_spec env toolDefs 5 0 msgs
  rw [hl] at HS
  dsimp only at HS
  obtain ⟨_, _, _, _, _, tail, Ht⟩ := HS
  cases ex <;> exact ⟨tail, Ht⟩

theorem submitUserInput_preserves_head (msgs : List Message) (input : String)
    (env : TurnEnv) (hne : msgs ≠ []) :
    (submitUserInput msgs input env).1.head? = msgs.head? := by
  unfold submitUserInput
  by_cases hi : input = ""
  · simp [send_message_to_llm, hi]
  · cases hLLM : env.llmInitialized
    · simp [send_message_to_llm, hi, List.getLast?_concat, userMessage,
        List.dropLast_concat]
    · obtain ⟨tail, ht⟩ := process_llm_interaction_appends env (msgs ++ [userMessage input])
      simp only [send_message_to_llm, hi, if_neg hi, Bool.not_true, if_neg]
      simp [ht]
      cases msgs with
      | nil => exact absurd rfl hne
      | cons a l => simp

/-- C9: the conversation history always begins with the system-prompt
message and is never empty: starting from the initial history, any
sequence of user turns (with arbitrary environments) leaves the
system-prompt message at index 0 — the only removal ever performed, the
guarded preflight rollback, pops only a trailing user-role message. -/
theorem history_never_loses_system_prompt (turns : List (String × TurnEnv)) :
    0 < (runSession turns).length
    ∧ (runSession turns).head? = some systemMessage := by
  have main : ∀ (ts : List (String × TurnEnv)) (msgs : List Message),
      msgs ≠ [] → msgs.head? = some systemMessage →
      (ts.foldl (fun m t => (submitUserInput m t.1 t.2).1) msgs) ≠ [] ∧
      (ts.foldl (fun m t => (submitUserInput m t.1 t.2).1) msgs).head? =
        some systemMessage := by
    intro ts
    induction ts with
    | nil => intro msgs h1 h2; exact ⟨h1, h2⟩
    | cons t rest ih =>
        intro msgs h1 h2
        have hh := submitUserInput_preserves_head msgs t.1 t.2 h1
        rw [h2] at hh
        have hne2 : (submitUserInput msgs t.1 t.2).1 ≠ [] := by
          intro hc
          rw [hc] at hh
          simp at hh
        exact ih _ hne2 hh
  have hm := main turns initialMessages (by simp [initialMessages]) rfl
  exact ⟨List.length_pos.mpr hm.1, hm.2⟩

/-- C10: submitting an empty (falsy) user input is a complete no-op: the
history is unchanged, nothing is emitted, and no processing (in particular
no network action) is started. -/
theorem empty_input_noop (msgs : List Message) (env : TurnEnv) :
    submitUserInput msgs "" env = (msgs, []) := by
  simp [submitUserInput, send_message_to_llm]

end VibeMCP
